import Mathlib

/-!
Verification development for the BRRR bot conversational turn engine.

The Python sources are embedded shallowly:
* strings are `List Char` (`Str`), with Python string primitives
  (`strip`, `rfind`, `in`, slicing, `lower`) modelled explicitly;
* JSON values are the inductive `Json`; `json_loads` models the stdlib
  parser on the integer fragment of JSON (floats are not exercised here);
* raised exceptions are modelled with `Except`;
* SQLite tables are lists of rows, and each `Database` method is a pure
  function of the table state.
-/

namespace Brrr

abbrev Str := List Char

/-- Apostrophe character, used when building message literals. -/
def apos : Char := Char.ofNat 39

/-- Whitespace in the sense of Python `str.strip` (ASCII fragment). -/
def pySpace (c : Char) : Bool :=
  c = ' ' || c = '\t' || c = '\n' || c = '\x0d' || c = '\x0b' || c = '\x0c'

/-- Python `s.strip()`: remove leading and trailing whitespace. -/
def pystrip (s : Str) : Str :=
  ((s.dropWhile pySpace).reverse.dropWhile pySpace).reverse

/-- Python `s.lower()` (ASCII fragment). -/
def pylower (s : Str) : Str := s.map Char.toLower

/-- Does `sub` occur in `s` starting exactly at index `i`? -/
def occursAt (s sub : Str) (i : Nat) : Bool :=
  sub.isPrefixOf (s.drop i)

/-- Python `s.rfind(sub, start)`: the greatest index `i ≥ start` at which
`sub` occurs in `s`, or `none` when Python would return `-1`. -/
def pyRfind (s sub : Str) (start : Nat) : Option Nat :=
  ((List.range (s.length + 1)).filter (fun i => start ≤ i && occursAt s sub i)).getLast?

/-- Python `sub in s` (substring test). -/
def containsSub (s sub : Str) : Bool :=
  (pyRfind s sub 0).isSome

/-- JSON values, as produced by the stdlib parser.  Numbers are restricted
to integers: no float ever flows through the code paths modelled here. -/
inductive Json where
  | null : Json
  | bool : Bool → Json
  | num : Int → Json
  | str : Str → Json
  | arr : List Json → Json
  | obj : List (Str × Json) → Json
deriving Repr

mutual

def Json.beq : Json → Json → Bool
  | .null, .null => true
  | .bool a, .bool b => a == b
  | .num a, .num b => a == b
  | .str a, .str b => a == b
  | .arr a, .arr b => Json.beqList a b
  | .obj a, .obj b => Json.beqFields a b
  | _, _ => false

def Json.beqList : List Json → List Json → Bool
  | [], [] => true
  | a :: as, b :: bs => Json.beq a b && Json.beqList as bs
  | _, _ => false

def Json.beqFields : List (Str × Json) → List (Str × Json) → Bool
  | [], [] => true
  | (k, v) :: as, (k2, v2) :: bs => k == k2 && Json.beq v v2 && Json.beqFields as bs
  | _, _ => false

end

mutual

def Json.beq_iff : ∀ a b : Json, Json.beq a b = true ↔ a = b
  | .null, b => by cases b <;> simp [Json.beq]
  | .bool x, b => by cases b <;> simp [Json.beq]
  | .num x, b => by cases b <;> simp [Json.beq]
  | .str x, b => by cases b <;> simp [Json.beq]
  | .arr xs, b => by
      cases b <;> simp [Json.beq]
      exact Json.beqList_iff xs _
  | .obj fs, b => by
      cases b <;> simp [Json.beq]
      exact Json.beqFields_iff fs _

def Json.beqList_iff : ∀ a b : List Json, Json.beqList a b = true ↔ a = b
  | [], b => by cases b <;> simp [Json.beqList]
  | x :: xs, b => by
      cases b with
      | nil => simp [Json.beqList]
      | cons y ys =>
        simp only [Json.beqList, Bool.and_eq_true, List.cons.injEq]
        exact and_congr (Json.beq_iff x y) (Json.beqList_iff xs ys)

def Json.beqFields_iff :
    ∀ a b : List (Str × Json), Json.beqFields a b = true ↔ a = b
  | [], b => by cases b <;> simp [Json.beqFields]
  | (k, v) :: xs, b => by
      cases b with
      | nil => simp [Json.beqFields]
      | cons y ys =>
        obtain ⟨k2, v2⟩ := y
        simp only [Json.beqFields, Bool.and_eq_true, beq_iff_eq, List.cons.injEq,
          Prod.mk.injEq]
        rw [Json.beq_iff v v2, Json.beqFields_iff xs ys]

end

instance : DecidableEq Json := fun a b =>
  decidable_of_iff (Json.beq a b = true) (Json.beq_iff a b)

/-- Python truthiness of a JSON-shaped value. -/
def jsonTruthy : Json → Bool
  | .null => false
  | .bool b => b
  | .num n => n != 0
  | .str s => !s.isEmpty
  | .arr xs => !xs.isEmpty
  | .obj fs => !fs.isEmpty

/-- Lookup of a key in a JSON object field list (first binding wins,
matching Python dict semantics for parsed JSON, whose keys are unique
after parsing since later duplicates overwrite — `json_loads` below keeps
the last binding for duplicated keys, so lists it produces are
duplicate-free from the front). -/
def jlookup (fields : List (Str × Json)) (k : Str) : Option Json :=
  (fields.find? (fun f => f.1 == k)).map (·.2)

/-! ### A model of the stdlib JSON parser (`json.loads`) -/

/-- JSON whitespace. -/
def jspace (c : Char) : Bool :=
  c = ' ' || c = '\t' || c = '\n' || c = '\x0d'

def hexVal (c : Char) : Option Nat :=
  if '0' ≤ c ∧ c ≤ '9' then some (c.toNat - 48)
  else if 'a' ≤ c ∧ c ≤ 'f' then some (10 + c.toNat - 97)
  else if 'A' ≤ c ∧ c ≤ 'F' then some (10 + c.toNat - 65)
  else none

def isDigitCh (c : Char) : Bool := '0' ≤ c && c ≤ '9'

def digitsToNat (ds : Str) : Nat :=
  ds.foldl (fun acc c => acc * 10 + (c.toNat - 48)) 0

/-- Parse the body of a JSON string literal (after the opening quote),
returning the decoded characters and the remaining input. -/
def parseStrBody : Nat → Str → Option (Str × Str)
  | 0, _ => none
  | _, [] => none
  | fuel+1, c :: rest =>
    if c = '"' then some ([], rest)
    else if c = '\\' then
      match rest with
      | [] => none
      | e :: rest2 =>
        let dec : Option Char :=
          if e = '"' then some '"'
          else if e = '\\' then some '\\'
          else if e = '/' then some '/'
          else if e = 'b' then some '\x08'
          else if e = 'f' then some '\x0c'
          else if e = 'n' then some '\n'
          else if e = 'r' then some '\x0d'
          else if e = 't' then some '\t'
          else none
        match dec with
        | some d => (parseStrBody fuel rest2).map (fun p => (d :: p.1, p.2))
        | none =>
          if e = 'u' then
            match rest2 with
            | h1 :: h2 :: h3 :: h4 :: rest3 =>
              match hexVal h1, hexVal h2, hexVal h3, hexVal h4 with
              | some a, some b, some g, some d =>
                (parseStrBody fuel rest3).map
                  (fun p => (Char.ofNat (((a * 16 + b) * 16 + g) * 16 + d) :: p.1, p.2))
              | _, _, _, _ => none
            | _ => none
          else none
    else (parseStrBody fuel rest).map (fun p => (c :: p.1, p.2))

/-- Insert a parsed object member, overwriting an earlier binding of the
same key in place (Python dict semantics for duplicate JSON keys). -/
def upsertField (acc : List (Str × Json)) (k : Str) (v : Json) : List (Str × Json) :=
  if acc.any (·.1 == k) then acc.map (fun p => if p.1 == k then (k, v) else p)
  else acc ++ [(k, v)]

mutual

/-- Parse one JSON value (fuel-indexed recursive descent). -/
def parseVal : Nat → Str → Option (Json × Str)
  | 0, _ => none
  | fuel+1, s =>
    match s.dropWhile jspace with
    | [] => none
    | c :: rest =>
      if c = 'n' then
        if ("ull".data).isPrefixOf rest then some (.null, rest.drop 3) else none
      else if c = 't' then
        if ("rue".data).isPrefixOf rest then some (.bool true, rest.drop 3) else none
      else if c = 'f' then
        if ("alse".data).isPrefixOf rest then some (.bool false, rest.drop 4) else none
      else if c = '"' then
        (parseStrBody (rest.length + 1) rest).map (fun p => (.str p.1, p.2))
      else if c = '-' then
        let ds := rest.takeWhile isDigitCh
        if ds.isEmpty then none
        else some (.num (-(digitsToNat ds : Int)), rest.drop ds.length)
      else if isDigitCh c then
        let ds := (c :: rest).takeWhile isDigitCh
        some (.num (digitsToNat ds), (c :: rest).drop ds.length)
      else if c = '[' then parseArrStart fuel rest
      else if c = '\x7b' then parseObjStart fuel rest
      else none

def parseArrStart : Nat → Str → Option (Json × Str)
  | 0, _ => none
  | fuel+1, s =>
    match s.dropWhile jspace with
    | ']' :: r => some (.arr [], r)
    | s1 => parseArrElems fuel s1 []

def parseArrElems : Nat → Str → List Json → Option (Json × Str)
  | 0, _, _ => none
  | fuel+1, s, acc =>
    match parseVal fuel s with
    | none => none
    | some (v, r) =>
      match r.dropWhile jspace with
      | ',' :: r2 => parseArrElems fuel r2 (acc ++ [v])
      | ']' :: r2 => some (.arr (acc ++ [v]), r2)
      | _ => none

def parseObjStart : Nat → Str → Option (Json × Str)
  | 0, _ => none
  | fuel+1, s =>
    match s.dropWhile jspace with
    | '\x7d' :: r => some (.obj [], r)
    | s1 => parseObjMembers fuel s1 []

def parseObjMembers : Nat → Str → List (Str × Json) → Option (Json × Str)
  | 0, _, _ => none
  | fuel+1, s, acc =>
    match s.dropWhile jspace with
    | '"' :: r =>
      match parseStrBody (r.length + 1) r with
      | none => none
      | some (k, r2) =>
        match r2.dropWhile jspace with
        | ':' :: r3 =>
          match parseVal fuel r3 with
          | none => none
          | some (v, r4) =>
            match r4.dropWhile jspace with
            | ',' :: r5 => parseObjMembers fuel r5 (upsertField acc k v)
            | '\x7d' :: r5 => some (.obj (upsertField acc k v), r5)
            | _ => none
        | _ => none
    | _ => none

end

/-- Model of Python `json.loads` on the integer fragment of JSON: parse a
value, then require only whitespace to remain.  `.error` models a raised
`json.JSONDecodeError`. -/
def json_loads (s : Str) : Except Unit Json :=
  match parseVal (3 * s.length + 3) s with
  | none => .error ()
  | some (v, r) => if (r.dropWhile jspace).isEmpty then .ok v else .error ()

/-- Python `needle in value` on a parsed JSON value; `.error` models a
raised `TypeError` (e.g. membership test on an int). -/
def jsonMember (needle : Str) : Json → Except Unit Bool
  | .obj f => .ok (f.any (·.1 == needle))
  | .arr xs => .ok (xs.any (· == Json.str needle))
  | .str s => .ok (containsSub s needle)
  | _ => .error ()

/-- Python `value[key]` with a string key; `.error` models a raised
`TypeError` or `KeyError`. -/
def jsonIndexStr (j : Json) (k : Str) : Except Unit Json :=
  match j with
  | .obj f => match jlookup f k with | some v => .ok v | none => .error ()
  | _ => .error ()

/-! ### The memory-directive extraction of the Model Gateway (src/llm.py) -/

def fence_json : Str := "```json".data

def fence_end : Str := "```".data

def memories_marker : Str := "\"memories\"".data

def memories_key : Str := "memories".data

/-- The memory-extraction block shared verbatim by `LLMClient.chat`
(src/llm.py lines 226–242) and `LLMClient.chat_with_tool_results`
(lines 393–407): locate the last ` ```json ` fence, take the text up to
the last closing fence after it, parse it, and on success return the
content truncated before the block (stripped) together with the
`memories` value.  Any exception inside the Python `try` (parse failure,
membership test or indexing raising) leaves the content unchanged and
the memory list empty. -/
def extract_memory_block (content : Str) : Str × Json :=
  if containsSub content fence_json && containsSub content memories_marker then
    match pyRfind content fence_json 0 with
    | none => (content, .arr [])
    | some js =>
      match pyRfind content fence_end (js + 7) with
      | none => (content, .arr [])
      | some je =>
        let json_str := pystrip ((content.take je).drop (js + 7))
        match json_loads json_str with
        | .error _ => (content, .arr [])
        | .ok md =>
          match jsonMember memories_key md with
          | .error _ => (content, .arr [])
          | .ok b =>
            if b then
              match jsonIndexStr md memories_key with
              | .error _ => (content, .arr [])
              | .ok v => (pystrip (content.take js), v)
            else (pystrip (content.take js), .arr [])
  else (content, .arr [])

/-! ### Model Gateway (src/llm.py) -/

structure ToolCall where
  id : Str
  fname : Str
  fargs : Str
deriving DecidableEq, Repr

structure LLMResponse where
  content : Str
  memories_to_save : Json
  usage : List (Str × Int)
  tool_calls : Option (List ToolCall)
deriving DecidableEq, Repr

structure UpMessage where
  content : Option Str
  tool_calls : Option (List ToolCall)
deriving DecidableEq, Repr

structure UpChoice where
  message : Option UpMessage
  finish_reason : Option Str
deriving DecidableEq, Repr

/-- An upstream chat-completions response body, already shaped: `choices`
may be empty (the code substitutes a default), a message may be absent,
and message content may be JSON null (`none`). -/
structure UpstreamData where
  choices : List UpChoice
  usage : List (Str × Int)
deriving DecidableEq, Repr

/-- Python `choices = data.get("choices") or [{}]; first_choice = choices[0] or {}`. -/
def firstChoice (d : UpstreamData) : UpChoice :=
  match d.choices with
  | [] => { message := none, finish_reason := none }
  | c :: _ => c

/-- Python `first_choice.get("message", {}).get("content", "")` with the
later `if content is None: content = ""` normalization. -/
def upstream_content (d : UpstreamData) : Str :=
  match (firstChoice d).message with
  | none => []
  | some m => m.content.getD []

def upstream_tool_calls (d : UpstreamData) : Option (List ToolCall) :=
  match (firstChoice d).message with
  | none => none
  | some m => m.tool_calls

def got_it_generic : Str :=
  "Got it, I".data ++ [apos] ++ "ll remember that.".data

def isJsonStr : Json → Bool
  | .str _ => true
  | _ => false

def jsonStrVal : Json → Str
  | .str s => s
  | _ => []

/-- Model of the acknowledgement synthesis in `LLMClient.chat`
(src/llm.py lines 246–255): collect the truthy `key` fields of dict
entries, and join up to 5 of them; every raised exception inside the
Python `try` (non-iterable value, non-string key in the join) lands on
the generic acknowledgement. -/
def synth_ack (mems : Json) : Str :=
  match mems with
  | .arr xs =>
    let keys := xs.filterMap (fun m =>
      match m with
      | .obj f =>
        match jlookup f ("key".data) with
        | some v => if jsonTruthy v then some v else none
        | none => none
      | _ => none)
    if keys.isEmpty then got_it_generic
    else
      let k5 := keys.take 5
      if k5.all isJsonStr then
        "Got it, I".data ++ [apos] ++ "ll remember that (".data
          ++ List.intercalate (", ".data) (k5.map jsonStrVal) ++ ").".data
      else got_it_generic
  | _ => got_it_generic

def didnt_get_msg : Str :=
  "brrr... I didn".data ++ [apos] ++ "t quite get that. Try asking in another way?".data

/-- The empty-content synthesis step of `LLMClient.chat` (src/llm.py
lines 246–255): when the visible content is empty and memories were
extracted, substitute the synthesized acknowledgement. -/
def chat_synth_step (em : Str × Json) : Str :=
  if (pystrip em.1).isEmpty ∧ jsonTruthy em.2 then synth_ack em.2 else em.1

/-- The truncation-recovery step of `LLMClient.chat` (src/llm.py lines
257–299): when the visible content is empty and finish_reason is
"length", issue one retry (whose outcome is `retry`; `.error` models the
request raising — caught and ignored) and use its stripped content and
usage when non-empty. -/
def chat_retry_step (clean2 : Str) (usage : List (Str × Int))
    (finish : Option Str) (retry : Except Unit UpstreamData) :
    Str × List (Str × Int) :=
  if (pystrip clean2).isEmpty ∧ finish = some ("length".data) then
    match retry with
    | .error _ => (clean2, usage)
    | .ok rd =>
      if (pystrip (upstream_content rd)).isEmpty then (clean2, usage)
      else (pystrip (upstream_content rd), rd.usage)
  else (clean2, usage)

/-- The absolute last-resort fallback of the Model Gateway (src/llm.py
lines 301–303 and 409–410): never return an empty string. -/
def absolute_fallback (x : Str) : Str :=
  if (pystrip x).isEmpty then didnt_get_msg else x

/-- Model of the response handling of `LLMClient.chat` (src/llm.py lines
211–310): content extraction, memory-block extraction, acknowledgement
synthesis, truncation-recovery retry, and the absolute fallback.
`data` is the upstream response; `retry` is the outcome of the recovery
request issued when visible content is empty with finish_reason =
"length". -/
def chat (data : UpstreamData) (retry : Except Unit UpstreamData) : LLMResponse :=
  let finish := (firstChoice data).finish_reason
  let em := extract_memory_block (upstream_content data)
  let cu := chat_retry_step (chat_synth_step em) data.usage finish retry
  { content := absolute_fallback cu.1, memories_to_save := em.2, usage := cu.2,
    tool_calls := upstream_tool_calls data }

/-- Model of the response handling of `LLMClient.chat_with_tool_results`
(src/llm.py lines 377–417): same extraction as `chat` but with no
synthesis and no truncation retry before the absolute fallback. -/
def chat_with_tool_results (data : UpstreamData) : LLMResponse :=
  let em := extract_memory_block (upstream_content data)
  { content := absolute_fallback em.1, memories_to_save := em.2,
    usage := data.usage, tool_calls := upstream_tool_calls data }

/-! ### Turn Orchestrator tool loop (src/cogs/chat.py lines 146–199) -/

def max_tool_rounds : Nat := 5

def too_many_steps_msg : Str :=
  ("I tried to complete your request but it required too many steps. "
    ++ "Please try breaking it into smaller requests.").data

/-- Python truthiness of `response.tool_calls` (None and [] are falsy). -/
def hasToolCalls (r : LLMResponse) : Bool :=
  match r.tool_calls with
  | some (_ :: _) => true
  | _ => false

/-- The while-loop of Chat.handle_mention, against a scripted Model
Gateway: `gateway n` is the response to the (n+1)-st request/response
exchange issued to the gateway in this turn.  Arguments: remaining fuel
(`max_tool_rounds - tool_round`), current response, current `tool_round`,
exchanges issued so far.  Returns (final response, final tool_round,
total exchanges issued). -/
def tool_loop (gateway : Nat → LLMResponse) :
    Nat → LLMResponse → Nat → Nat → LLMResponse × Nat × Nat
  | 0, resp, round, calls => (resp, round, calls)
  | fuel+1, resp, round, calls =>
    if hasToolCalls resp then
      tool_loop gateway fuel (gateway calls) (round + 1) (calls + 1)
    else (resp, round, calls)

/-- Model of the tool-calling portion of Chat.handle_mention: a first
exchange (`llm.chat`), the bounded while-loop of continuation exchanges
(`llm.chat_with_tool_results`), and the circuit breaker that overwrites
the content when the ceiling was reached with tool calls still pending.
Returns the final response and the number of gateway exchanges issued. -/
def handle_mention_rounds (gateway : Nat → LLMResponse) : LLMResponse × Nat :=
  let l := tool_loop gateway max_tool_rounds (gateway 0) 0 1
  if max_tool_rounds ≤ l.2.1 ∧ hasToolCalls l.1 then
    ({ l.1 with content := too_many_steps_msg }, l.2.2)
  else (l.1, l.2.2)

/-! ### History Sanitizer (src/cogs/chat.py lines 63–113) -/

structure HMsg where
  role : Str
  content : Str
deriving DecidableEq, Repr

def didnt_marker : Str := "didn".data ++ [apos] ++ "t quite get that".data

def command_indicators : List Str :=
  [ "describe the projects".data,
    "/help".data, "/project".data, "/idea".data, "/week".data,
    "/memory".data, "/persona".data,
    "what commands".data, "list commands".data, "show commands".data,
    "what can you do".data, "how do you help".data,
    "Quick things I can do".data,
    "Start/manage projects:".data,
    "Useful commands".data,
    "Quick commands to get started".data,
    "/ping (latency)".data,
    "/brrr (bot status)".data ]

/-- The per-message skip conditions of the history filter: empty content,
previous fallback messages from the assistant, slash commands, and the
command-vocabulary denylist (checked both case-sensitively and against
the lowercased content). -/
def msg_skipped (m : HMsg) : Bool :=
  (pystrip m.content).isEmpty
  || (m.role == ("assistant".data) && containsSub m.content didnt_marker)
  || (("/".data).isPrefixOf m.content)
  || command_indicators.any (fun ind =>
      containsSub m.content ind || containsSub (pylower m.content) ind)

/-- The filtering loop: `hist` is the accumulated history and `lastRole`
the `last_role` variable; consecutive same-role messages replace the
previous entry of that role. -/
def sanitize_loop : List HMsg → List HMsg → Option Str → List HMsg
  | [], hist, _ => hist
  | m :: rest, hist, lastRole =>
    if msg_skipped m then sanitize_loop rest hist lastRole
    else if lastRole = some m.role then
      if (hist.getLast?).map HMsg.role = some m.role then
        sanitize_loop rest (hist.dropLast ++ [m]) lastRole
      else sanitize_loop rest (hist ++ [m]) (some m.role)
    else sanitize_loop rest (hist ++ [m]) (some m.role)

/-- Model of the history sanitization in Chat.handle_mention: filter and
collapse the raw history, then keep only the most recent 4 entries
(Python `history[-4:]` when the length exceeds 4). -/
def sanitize_history (raw : List HMsg) : List HMsg :=
  if 4 < (sanitize_loop raw [] none).length then
    (sanitize_loop raw [] none).drop ((sanitize_loop raw [] none).length - 4)
  else sanitize_loop raw [] none

/-! ### Outbound rendering (src/cogs/chat.py lines 216–229) -/

inductive OutMsg where
  | reply (content : Str) : OutMsg
  | plain (content : Str) : OutMsg
deriving DecidableEq, Repr

def OutMsg.payload : OutMsg → Str
  | .reply c => c
  | .plain c => c

def blank_msg : Str := "brrr... my brain went blank! Try asking again? 🔧".data

/-- Python `[reply_content[i:i+2000] for i in range(0, len(reply_content), 2000)]`. -/
def chunksOf2000 : Nat → Str → List Str
  | 0, _ => []
  | _+1, [] => []
  | fuel+1, s => s.take 2000 :: chunksOf2000 fuel (s.drop 2000)

/-- Model of the outbound rendering of Chat.handle_mention: strip the
final content, substitute the blank-brain fallback when empty, and when
longer than 2000 characters split into fixed 2000-character chunks, the
first sent as a reply and the rest as plain channel sends. -/
def render_outbound (content : Str) : List OutMsg :=
  let rc0 := pystrip content
  let rc := if rc0.isEmpty then blank_msg else rc0
  if 2000 < rc.length then
    match chunksOf2000 rc.length rc with
    | [] => []
    | c :: cs => OutMsg.reply c :: cs.map OutMsg.plain
  else [OutMsg.reply rc]

/-! ### User-memory store (src/database.py, table user_memories) -/

/-- A row of the user_memories table.  SQLite columns are dynamically
typed, so key/value/context are JSON-shaped values (`Json.null` models
SQL NULL). -/
structure MemRow where
  user_id : Int
  guild_id : Int
  memory_key : Json
  memory_value : Json
  context : Json
  created_at : Str
  updated_at : Str
deriving DecidableEq, Repr

abbrev MemStore := List MemRow

/-- The UNIQUE(user_id, guild_id, memory_key) identity of a row. -/
def isIdm (uid gid : Int) (key : Json) (r : MemRow) : Bool :=
  decide (r.user_id = uid ∧ r.guild_id = gid ∧ r.memory_key = key)

/-- Well-formedness enforced by the UNIQUE constraint: no two rows share
an identity. -/
def MemWf (s : MemStore) : Prop :=
  s.Pairwise (fun a b =>
    ¬(a.user_id = b.user_id ∧ a.guild_id = b.guild_id ∧ a.memory_key = b.memory_key))

/-- The DO UPDATE arm of the upsert: replace memory_value, context and
updated_at of the row whose identity conflicts, leave other rows as they
are. -/
def upd_row (uid gid : Int) (key value context : Json) (now : Str)
    (r : MemRow) : MemRow :=
  if isIdm uid gid key r then
    { r with memory_value := value, context := context, updated_at := now }
  else r

/-- Model of Database.set_memory (src/database.py lines 416–430): INSERT
.. ON CONFLICT(user_id, guild_id, memory_key) DO UPDATE SET memory_value,
context, updated_at; `now` is the datetime.utcnow() timestamp. -/
def set_memory (s : MemStore) (uid gid : Int) (key value context : Json)
    (now : Str) : MemStore :=
  if s.any (isIdm uid gid key) then
    s.map (upd_row uid gid key value context now)
  else
    s ++ [{ user_id := uid, guild_id := gid, memory_key := key,
            memory_value := value, context := context,
            created_at := now, updated_at := now }]

/-- Model of Database.get_memory (lines 432–440): SELECT memory_value
WHERE identity matches, first row. -/
def get_memory (s : MemStore) (uid gid : Int) (key : Json) : Option Json :=
  ((s.filter (isIdm uid gid key)).head?).map (·.memory_value)

structure MemEntry where
  value : Json
  context : Json
  updated_at : Str
deriving DecidableEq, Repr

/-- Model of Database.get_all_memories (lines 442–455): the rows of the
(user, guild) scope rendered as the association list underlying the
returned dict. -/
def get_all_memories (s : MemStore) (uid gid : Int) : List (Json × MemEntry) :=
  (s.filter (fun r => decide (r.user_id = uid ∧ r.guild_id = gid))).map
    (fun r => (r.memory_key, ⟨r.memory_value, r.context, r.updated_at⟩))

/-- Lookup in a Python dict built from an association list: the last
binding of a key wins. -/
def pyDictGet (l : List (Json × MemEntry)) (k : Json) : Option MemEntry :=
  ((l.filter (fun p => decide (p.1 = k))).getLast?).map (·.2)

/-- Model of the memory-persistence loop of Chat.handle_mention
(src/cogs/chat.py lines 205–214): each proposed memory is upserted with
defaults `misc` / empty string / None for missing key/value/context, but
the following `logger.info` f-string indexes the memory dict with `key`
and `value`
directly, so a missing field raises KeyError there — after the upsert.
`.error` carries the store state at the abort; a non-dict entry raises
on `.get` before any write. -/
def save_memories (s : MemStore) (uid gid : Int) (now : Str) :
    List Json → Except MemStore MemStore
  | [] => .ok s
  | m :: rest =>
    match m with
    | .obj f =>
      let key := (jlookup f ("key".data)).getD (.str ("misc".data))
      let value := (jlookup f ("value".data)).getD (.str [])
      let ctx := (jlookup f ("context".data)).getD .null
      let s1 := set_memory s uid gid key value ctx now
      if (jlookup f ("key".data)).isSome ∧ (jlookup f ("value".data)).isSome then
        save_memories s1 uid gid now rest
      else .error s1
    | _ => .error s

/-! ### Projects and tasks (src/database.py, src/tools.py) -/

structure Task where
  id : Int
  project_id : Int
  label : Str
  is_done : Int
  created_by : Option Int
  assigned_to : Option Int
  created_at : Str
deriving DecidableEq, Repr

structure Project where
  id : Int
  guild_id : Int
  title : Str
  description : Option Str
  owners : List Int
  status : Str
  thread_id : Option Int
  created_at : Str
  archived_at : Option Str
  tags : List Str
  template : Option Str
deriving DecidableEq, Repr

structure DB where
  projects : List Project
  tasks : List Task
deriving DecidableEq, Repr

/-- Model of Database.get_project (lines 151–159): SELECT * FROM projects
WHERE id = ?, first row — no guild filter in the query. -/
def db_get_project (db : DB) (pid : Int) : Option Project :=
  (db.projects.filter (·.id == pid)).head?

/-- Model of Database.get_task (lines 243–249): SELECT * FROM tasks WHERE
id = ?, first row. -/
def db_get_task (db : DB) (tid : Int) : Option Task :=
  (db.tasks.filter (·.id == tid)).head?

/-- SQLite logical NOT on a non-NULL integer. -/
def sqlNot (n : Int) : Int := if n = 0 then 1 else 0

/-- The per-row effect of the toggle UPDATE: rows whose id matches get
is_done := NOT is_done, other rows are untouched. -/
def toggle_row (tid : Int) (t : Task) : Task :=
  if t.id == tid then { t with is_done := sqlNot t.is_done } else t

/-- Model of Database.toggle_task (lines 251–259): UPDATE tasks SET
is_done = NOT is_done WHERE id = ?. -/
def db_toggle_task (db : DB) (tid : Int) : DB :=
  { db with tasks := db.tasks.map (toggle_row tid) }

/-- Model of Database.get_project_tasks (lines 232–241): tasks of a
project ordered by created_at (list order is creation order here). -/
def db_get_project_tasks (db : DB) (pid : Int) : List Task :=
  db.tasks.filter (·.project_id == pid)

def intStr (n : Int) : Str := (toString n).data

def natStr (n : Nat) : Str := (toString n).data

def projNotFound (pid : Int) : Str :=
  "Error: Project with ID ".data ++ intStr pid ++ " not found.".data

def taskLine (t : Task) : Str :=
  "  ".data ++ (if t.is_done != 0 then "✅".data else "⬜".data)
    ++ " [".data ++ intStr t.id ++ "] ".data ++ t.label

/-- The project-detail text built by ToolExecutor._get_project_info
(src/tools.py lines 132–149). -/
def projectInfoText (db : DB) (p : Project) : Str :=
  let tasks := db_get_project_tasks db p.id
  let completed := (tasks.filter (fun t => t.is_done != 0)).length
  let base : List Str :=
    [ "**".data ++ p.title ++ "** (ID: ".data ++ intStr p.id ++ ")".data,
      "Status: ".data ++ p.status,
      "Description: ".data ++ (match p.description with
        | some d => if d.isEmpty then "No description".data else d
        | none => "No description".data),
      "Created: ".data ++ p.created_at,
      "Tasks: ".data ++ natStr completed ++ "/".data
        ++ natStr tasks.length ++ " completed".data ]
  let rows := if tasks.isEmpty then base
    else base ++ ["\nTask List:".data] ++ tasks.map taskLine
  List.intercalate ("\n".data) rows

def missing_project_id_msg : Str := "Error: Missing project_id".data

/-- Model of ToolExecutor._get_project_info (src/tools.py lines 124–149).
The argument is tool_args.get("project_id"): `none` models an absent
argument, and Python `if not project_id` also rejects 0. -/
def tool_get_project_info (db : DB) (pid : Option Int) : Str :=
  match pid with
  | none => missing_project_id_msg
  | some p =>
    if p = 0 then missing_project_id_msg
    else
      match db_get_project db p with
      | none => projNotFound p
      | some proj => projectInfoText db proj

def missing_task_id_msg : Str := "Error: Missing task_id".data

def taskNotFound (tid : Int) : Str :=
  "Error: Task with ID ".data ++ intStr tid ++ " not found.".data

/-- Model of ToolExecutor._toggle_task (src/tools.py lines 201–211):
result text plus the updated table state. -/
def tool_toggle_task (db : DB) (tid : Option Int) : Str × DB :=
  match tid with
  | none => (missing_task_id_msg, db)
  | some t =>
    if t = 0 then (missing_task_id_msg, db)
    else
      match db_get_task db t with
      | none => (taskNotFound t, db)
      | some task =>
        let db2 := db_toggle_task db t
        let status := if task.is_done = 0 then
            "completed ✅".data else "incomplete ⬜".data
        ("Task ".data ++ [apos] ++ task.label ++ [apos]
          ++ " marked as ".data ++ status, db2)

structure CallerCtx where
  guild_id : Option Int
  user_id : Option Int
deriving DecidableEq, Repr

def argInt (args : List (Str × Json)) (k : Str) : Option Int :=
  match jlookup args k with
  | some (.num n) => some n
  | _ => none

/-- The "get_project_info" branch of ToolExecutor.execute_tool
(src/tools.py line 34): the caller context is available to the
dispatcher but is not passed to the implementation. -/
def execute_get_project_info (db : DB) (args : List (Str × Json))
    (ctx : CallerCtx) : Str :=
  tool_get_project_info db (argInt args ("project_id".data))

/-- The "toggle_task" branch of ToolExecutor.execute_tool (line 44). -/
def execute_toggle_task (db : DB) (args : List (Str × Json))
    (ctx : CallerCtx) : Str × DB :=
  tool_toggle_task db (argInt args ("task_id".data))

/-! ## Lemmas about the memory store -/

section MemoryLemmas

variable {uid gid : Int} {key v c : Json} {now : Str} {s : MemStore}

lemma upd_row_user_id (r : MemRow) :
    (upd_row uid gid key v c now r).user_id = r.user_id := by
  unfold upd_row; split <;> rfl

lemma upd_row_guild_id (r : MemRow) :
    (upd_row uid gid key v c now r).guild_id = r.guild_id := by
  unfold upd_row; split <;> rfl

lemma upd_row_memory_key (r : MemRow) :
    (upd_row uid gid key v c now r).memory_key = r.memory_key := by
  unfold upd_row; split <;> rfl

lemma upd_row_created_at (r : MemRow) :
    (upd_row uid gid key v c now r).created_at = r.created_at := by
  unfold upd_row; split <;> rfl

lemma isIdm_upd_row (u2 g2 : Int) (k2 : Json) (r : MemRow) :
    isIdm u2 g2 k2 (upd_row uid gid key v c now r) = isIdm u2 g2 k2 r := by
  simp [isIdm, upd_row_user_id, upd_row_guild_id, upd_row_memory_key]

lemma isIdm_fields {r : MemRow} (h : isIdm uid gid key r = true) :
    r.user_id = uid ∧ r.guild_id = gid ∧ r.memory_key = key := by
  simpa [isIdm] using h

lemma mem_set_memory_of_idm :
    ∀ r ∈ set_memory s uid gid key v c now, isIdm uid gid key r = true →
      r.memory_value = v ∧ r.context = c ∧ r.updated_at = now := by
  intro r hr hidm
  unfold set_memory at hr
  by_cases hany : s.any (isIdm uid gid key) = true
  · rw [if_pos hany] at hr
    obtain ⟨r0, hr0, heq⟩ := List.mem_map.mp hr
    unfold upd_row at heq
    by_cases h0 : isIdm uid gid key r0 = true
    · rw [if_pos h0] at heq
      subst heq; exact ⟨rfl, rfl, rfl⟩
    · rw [if_neg h0] at heq
      subst heq; exact absurd hidm h0
  · rw [if_neg hany] at hr
    rcases List.mem_append.mp hr with h | h
    · exact absurd (List.any_eq_true.mpr ⟨r, h, hidm⟩) hany
    · have := List.mem_singleton.mp h
      subst this; exact ⟨rfl, rfl, rfl⟩

lemma set_memory_any :
    (set_memory s uid gid key v c now).any (isIdm uid gid key) = true := by
  unfold set_memory
  by_cases hany : s.any (isIdm uid gid key) = true
  · rw [if_pos hany]
    obtain ⟨r0, hr0, h0⟩ := List.any_eq_true.mp hany
    refine List.any_eq_true.mpr ⟨_, List.mem_map_of_mem _ hr0, ?_⟩
    rw [isIdm_upd_row]; exact h0
  · rw [if_neg hany]
    refine List.any_eq_true.mpr
      ⟨_, List.mem_append_right _ (List.mem_singleton_self _), ?_⟩
    simp [isIdm]

lemma countP_isIdm_le_one (wf : MemWf s) :
    s.countP (isIdm uid gid key) ≤ 1 := by
  induction s with
  | nil => simp
  | cons a t ih =>
    rw [MemWf, List.pairwise_cons] at wf
    by_cases ha : isIdm uid gid key a = true
    · rw [List.countP_cons_of_pos _ _ ha]
      have ht : t.countP (isIdm uid gid key) = 0 := by
        rw [List.countP_eq_zero]
        intro b hb hbid
        have hA := isIdm_fields ha
        have hB := isIdm_fields hbid
        exact wf.1 b hb
          ⟨hA.1.trans hB.1.symm, hA.2.1.trans hB.2.1.symm, hA.2.2.trans hB.2.2.symm⟩
      omega
    · rw [List.countP_cons_of_neg _ _ ha]
      exact ih wf.2

lemma set_memory_wf (wf : MemWf s) :
    MemWf (set_memory s uid gid key v c now) := by
  unfold set_memory
  by_cases hany : s.any (isIdm uid gid key) = true
  · rw [if_pos hany]
    refine List.Pairwise.map _ (fun a b hab => ?_) wf
    intro hcon
    exact hab ⟨(upd_row_user_id a) ▸ (upd_row_user_id b) ▸ hcon.1,
      (upd_row_guild_id a) ▸ (upd_row_guild_id b) ▸ hcon.2.1,
      (upd_row_memory_key a) ▸ (upd_row_memory_key b) ▸ hcon.2.2⟩
  · rw [if_neg hany]
    rw [MemWf, List.pairwise_append]
    refine ⟨wf, List.pairwise_singleton _ _, ?_⟩
    intro a ha b hb
    have hb2 := List.mem_singleton.mp hb
    subst hb2
    intro hcon
    have : isIdm uid gid key a = true := by
      simp [isIdm]
      exact ⟨hcon.1, hcon.2.1, hcon.2.2⟩
    exact hany (List.any_eq_true.mpr ⟨a, ha, this⟩)

lemma countP_set_memory (wf : MemWf s) :
    (set_memory s uid gid key v c now).countP (isIdm uid gid key) = 1 := by
  have hle : (set_memory s uid gid key v c now).countP (isIdm uid gid key) ≤ 1 :=
    countP_isIdm_le_one (set_memory_wf wf)
  have hany : (set_memory s uid gid key v c now).any (isIdm uid gid key) = true :=
    set_memory_any
  have hpos : 0 < (set_memory s uid gid key v c now).countP (isIdm uid gid key) := by
    obtain ⟨r, hr, hid⟩ := List.any_eq_true.mp hany
    exact List.countP_pos_iff.mpr ⟨r, hr, hid⟩
  omega

lemma get_memory_set :
    get_memory (set_memory s uid gid key v c now) uid gid key = some v := by
  have hany : (set_memory s uid gid key v c now).any (isIdm uid gid key) = true :=
    set_memory_any
  obtain ⟨r, hr, hid⟩ := List.any_eq_true.mp hany
  unfold get_memory
  have hfil : r ∈ (set_memory s uid gid key v c now).filter (isIdm uid gid key) :=
    List.mem_filter.mpr ⟨hr, hid⟩
  have hne := List.ne_nil_of_mem hfil
  rw [List.head?_eq_head hne]
  have hmem := List.head_mem hne
  have h1 := List.mem_of_mem_filter hmem
  have h2 := List.of_mem_filter hmem
  have h3 := mem_set_memory_of_idm _ h1 h2
  simp only [Option.map_some']
  rw [h3.1]

lemma pyDict_get_all_set :
    pyDictGet (get_all_memories (set_memory s uid gid key v c now) uid gid) key
      = some ⟨v, c, now⟩ := by
  have hany : (set_memory s uid gid key v c now).any (isIdm uid gid key) = true :=
    set_memory_any
  obtain ⟨r, hr, hid⟩ := List.any_eq_true.mp hany
  have hidp := isIdm_fields hid
  have hug : r ∈ (set_memory s uid gid key v c now).filter
      (fun r => decide (r.user_id = uid ∧ r.guild_id = gid)) :=
    List.mem_filter.mpr ⟨hr, by simp [hidp.1, hidp.2.1]⟩
  have hpair : (r.memory_key, (⟨r.memory_value, r.context, r.updated_at⟩ : MemEntry))
      ∈ get_all_memories (set_memory s uid gid key v c now) uid gid :=
    List.mem_map_of_mem _ hug
  have hpf : (r.memory_key, (⟨r.memory_value, r.context, r.updated_at⟩ : MemEntry))
      ∈ (get_all_memories (set_memory s uid gid key v c now) uid gid).filter
        (fun p => decide (p.1 = key)) :=
    List.mem_filter.mpr ⟨hpair, by simp [hidp.2.2]⟩
  have hne := List.ne_nil_of_mem hpf
  unfold pyDictGet
  rw [List.getLast?_eq_getLast _ hne]
  have hmem := List.getLast_mem hne
  have h1 := List.mem_of_mem_filter hmem
  have h2 := List.of_mem_filter hmem
  obtain ⟨r2, hr2, hpeq⟩ := List.mem_map.mp h1
  have hr2mem := List.mem_of_mem_filter hr2
  have hr2ug : r2.user_id = uid ∧ r2.guild_id = gid := by
    have := List.of_mem_filter hr2
    simpa using this
  have hkey : r2.memory_key = key := by
    rw [← hpeq] at h2
    simpa using h2
  have hidm2 : isIdm uid gid key r2 = true := by
    simp [isIdm, hr2ug.1, hr2ug.2, hkey]
  have h3 := mem_set_memory_of_idm _ hr2mem hidm2
  rw [← hpeq]
  simp only [Option.map_some']
  rw [h3.1, h3.2.1, h3.2.2]

end MemoryLemmas

lemma toggle_row_invol (tid : Int) (t : Task)
    (h : t.is_done = 0 ∨ t.is_done = 1) :
    toggle_row tid (toggle_row tid t) = t := by
  obtain ⟨i, pI, lb, d, cb, asg, ca⟩ := t
  by_cases hid : i = tid
  · subst hid
    rcases h with h0 | h0 <;> simp_all [toggle_row, sqlNot]
  · simp [toggle_row, hid]

/-- The loop invariant of the history filter: consecutive accumulated
entries never share a role, and `last_role` is the role of the last
accumulated entry. -/
lemma sanitize_loop_chain :
    ∀ (raw hist : List HMsg) (lastRole : Option Str),
      List.Chain' (fun a b : HMsg => a.role ≠ b.role) hist →
      (∀ r ∈ hist.getLast?, lastRole = some r.role) →
      List.Chain' (fun a b : HMsg => a.role ≠ b.role) (sanitize_loop raw hist lastRole) := by
  intro raw
  induction raw with
  | nil => intro hist lastRole hch _; exact hch
  | cons m rest ih =>
    intro hist lastRole hch hinv
    simp only [sanitize_loop]
    by_cases hskip : msg_skipped m = true
    · rw [if_pos hskip]; exact ih hist lastRole hch hinv
    · rw [if_neg hskip]
      by_cases houter : lastRole = some m.role
      · rw [if_pos houter]
        by_cases hinner : (hist.getLast?).map HMsg.role = some m.role
        · rw [if_pos hinner]
          obtain ⟨r, hr, hrole⟩ := Option.map_eq_some'.mp hinner
          have hsplit : hist.dropLast ++ [r] = hist :=
            List.dropLast_append_getLast? r hr
          apply ih
          · rw [← hsplit] at hch
            obtain ⟨h1, _, h3⟩ := List.chain'_append.mp hch
            refine List.chain'_append.mpr ⟨h1, List.chain'_singleton m, ?_⟩
            intro x hx y hy
            simp only [List.head?_cons, Option.mem_def, Option.some.injEq] at hy
            subst hy
            have := h3 x hx r (by simp)
            rw [← hrole]
            exact this
          · intro r2 hr2
            rw [List.getLast?_concat] at hr2
            simp only [Option.mem_def, Option.some.injEq] at hr2
            subst hr2
            exact houter
        · rw [if_neg hinner]
          have hnil : hist = [] := by
            cases hlast : hist.getLast? with
            | none => exact List.getLast?_eq_none_iff.mp hlast
            | some r =>
              exfalso
              apply hinner
              rw [hlast, Option.map_some']
              rw [hinv r (by rw [hlast]; rfl)] at houter
              exact congrArg some (Option.some.inj houter.symm) ▸ rfl
          subst hnil
          apply ih
          · simp
          · intro r2 hr2
            simp only [List.nil_append, List.getLast?_singleton,
              Option.mem_def, Option.some.injEq] at hr2
            subst hr2; rfl
      · rw [if_neg houter]
        apply ih
        · refine List.chain'_append.mpr ⟨hch, List.chain'_singleton m, ?_⟩
          intro x hx y hy
          simp only [List.head?_cons, Option.mem_def, Option.some.injEq] at hy
          subst hy
          intro hcon
          exact houter ((hinv x hx).trans (congrArg some hcon))
        · intro r2 hr2
          rw [List.getLast?_concat] at hr2
          simp only [Option.mem_def, Option.some.injEq] at hr2
          subst hr2; rfl

/-! ## Claims -/

/-- C5: for every raw history input, the sanitized history has length at
most 4, no two consecutive entries share a role, and the sanitizer is a
deterministic pure function of its input. -/
theorem c5_sanitize_history (raw : List HMsg) :
    (sanitize_history raw).length ≤ 4
    ∧ List.Chain' (fun a b : HMsg => a.role ≠ b.role) (sanitize_history raw)
    ∧ ∀ raw2, raw = raw2 → sanitize_history raw = sanitize_history raw2 := by
  have hch : List.Chain' (fun a b : HMsg => a.role ≠ b.role)
      (sanitize_loop raw [] none) :=
    sanitize_loop_chain raw [] none List.chain'_nil (by simp)
  refine ⟨?_, ?_, fun raw2 h => by rw [h]⟩
  · unfold sanitize_history
    by_cases h4 : 4 < (sanitize_loop raw [] none).length
    · rw [if_pos h4, List.length_drop]
      omega
    · rw [if_neg h4]
      omega
  · unfold sanitize_history
    by_cases h4 : 4 < (sanitize_loop raw [] none).length
    · rw [if_pos h4]
      exact hch.suffix (List.drop_suffix _ _)
    · rw [if_neg h4]
      exact hch

def c5_raw : List HMsg :=
  [ ⟨"user".data, "hello there".data⟩,
    ⟨"user".data, "are you around".data⟩,
    ⟨"assistant".data, didnt_get_msg⟩,
    ⟨"assistant".data, "sure thing".data⟩,
    ⟨"user".data, "/project list".data⟩,
    ⟨"user".data, "thanks".data⟩,
    ⟨"assistant".data, "no problem".data⟩ ]

/-- Witness for C5 on a seven-entry raw history with repeated roles, a
fallback message and a slash command. -/
theorem c5_sanitize_history_witness :
    (sanitize_history c5_raw).length ≤ 4
    ∧ sanitize_history c5_raw = sanitize_history c5_raw :=
  ⟨(c5_sanitize_history c5_raw).1, (c5_sanitize_history c5_raw).2.2 c5_raw rfl⟩

lemma tool_loop_saturated (gateway : Nat → LLMResponse)
    (h : ∀ n, hasToolCalls (gateway n) = true) :
    ∀ (fuel : Nat) (resp : LLMResponse) (round calls : Nat),
      hasToolCalls resp = true →
      (tool_loop gateway fuel resp round calls).2.1 = round + fuel
      ∧ (tool_loop gateway fuel resp round calls).2.2 = calls + fuel
      ∧ hasToolCalls (tool_loop gateway fuel resp round calls).1 = true := by
  intro fuel
  induction fuel with
  | zero => intro resp round calls hr; exact ⟨rfl, rfl, hr⟩
  | succ n ihn =>
    intro resp round calls hr
    simp only [tool_loop]
    rw [if_pos hr]
    obtain ⟨a, b, c⟩ := ihn (gateway calls) (round + 1) (calls + 1) (h calls)
    exact ⟨by rw [a]; omega, by rw [b]; omega, c⟩

/-- C1 (amended): against a scripted Model Gateway that returns tool
calls on every round, the orchestrator issues exactly 6 request/response
exchanges — the initial `chat` round plus the 5 continuation rounds
allowed by the max_tool_rounds ceiling — the loop terminates, and the
final user-facing content is the fixed "too many steps" message. -/
theorem c1_tool_loop_ceiling (gateway : Nat → LLMResponse)
    (h : ∀ n, hasToolCalls (gateway n) = true) :
    (handle_mention_rounds gateway).2 = 6
    ∧ (handle_mention_rounds gateway).1.content = too_many_steps_msg := by
  obtain ⟨a, b, c⟩ :=
    tool_loop_saturated gateway h max_tool_rounds (gateway 0) 0 1 (h 0)
  have hcond : max_tool_rounds
        ≤ (tool_loop gateway max_tool_rounds (gateway 0) 0 1).2.1
      ∧ hasToolCalls (tool_loop gateway max_tool_rounds (gateway 0) 0 1).1 = true := by
    refine ⟨?_, c⟩
    rw [a]
    omega
  constructor
  · show (handle_mention_rounds gateway).2 = 6
    simp only [handle_mention_rounds]
    rw [if_pos hcond, b]
    rfl
  · show (handle_mention_rounds gateway).1.content = too_many_steps_msg
    simp only [handle_mention_rounds]
    rw [if_pos hcond]

def c1_gateway : Nat → LLMResponse := fun _ =>
  { content := "working on it".data, memories_to_save := .arr [], usage := [],
    tool_calls := some [⟨"call_1".data, "get_projects".data, "\x7b\x7d".data⟩] }

/-- Counterexample to C1 as stated: with a gateway that returns tool
calls on every round, the orchestrator issues 6 request/response
exchanges in the turn, not at most 5 — the initial `chat` exchange is
followed by the 5 continuation exchanges of the loop. -/
theorem c1_counterexample :
    (handle_mention_rounds c1_gateway).2 = 6
    ∧ ¬((handle_mention_rounds c1_gateway).2 ≤ 5) := by decide

/-- Witness for the amended C1 at a concrete always-tool-calling gateway. -/
theorem c1_tool_loop_ceiling_witness :
    (handle_mention_rounds c1_gateway).2 = 6
    ∧ (handle_mention_rounds c1_gateway).1.content = too_many_steps_msg :=
  c1_tool_loop_ceiling c1_gateway (fun _ => rfl)

lemma chunksOf2000_join :
    ∀ (fuel : Nat) (s : Str), s.length ≤ fuel → (chunksOf2000 fuel s).flatten = s := by
  intro fuel
  induction fuel with
  | zero =>
    intro s hs
    have : s = [] := List.length_eq_zero.mp (Nat.le_zero.mp hs)
    subst this; rfl
  | succ n ihn =>
    intro s hs
    cases s with
    | nil => rfl
    | cons c cs =>
      simp only [chunksOf2000, List.flatten_cons]
      rw [ihn _ (by rw [List.length_drop]; omega)]
      exact List.take_append_drop 2000 (c :: cs)

lemma chunksOf2000_le :
    ∀ (fuel : Nat) (s : Str), ∀ ch ∈ chunksOf2000 fuel s, ch.length ≤ 2000 := by
  intro fuel
  induction fuel with
  | zero => intro s ch hch; simp [chunksOf2000] at hch
  | succ n ihn =>
    intro s ch hch
    cases s with
    | nil => simp [chunksOf2000] at hch
    | cons c cs =>
      simp only [chunksOf2000, List.mem_cons] at hch
      rcases hch with h | h
      · subst h; simp [List.length_take]
      · exact ihn _ ch h

lemma chunksOf2000_ne_nil (fuel : Nat) (s : Str) (hs : s ≠ []) (hf : fuel ≠ 0) :
    chunksOf2000 fuel s ≠ [] := by
  cases fuel with
  | zero => exact absurd rfl hf
  | succ n =>
    cases s with
    | nil => exact absurd rfl hs
    | cons c cs => simp [chunksOf2000]

lemma dropWhile_replicate_append {p : Char → Bool} {a b : Char} (hpa : p a = true)
    (hpb : p b = false) (n : Nat) :
    (List.replicate n a ++ [b]).dropWhile p = [b] := by
  induction n with
  | zero => simp [hpb]
  | succ m ih => simpa [List.replicate_succ, hpa] using ih

lemma dropWhile_replicate_false {p : Char → Bool} {a : Char} (hp : p a = false)
    (n : Nat) : (List.replicate n a).dropWhile p = List.replicate n a := by
  cases n with
  | zero => rfl
  | succ m => simp [List.replicate_succ, hp]

def c7_long_blank : Str := 'a' :: List.replicate 2500 ' '

lemma pystrip_c7_long_blank : pystrip c7_long_blank = ['a'] := by
  unfold c7_long_blank pystrip
  have hpa : pySpace 'a' = false := rfl
  have hps : pySpace ' ' = true := rfl
  rw [List.dropWhile_cons_of_neg (by simp [hpa]), List.reverse_cons,
    List.reverse_replicate, dropWhile_replicate_append hps hpa]
  rfl

/-- Counterexample to C7 as stated: a 2501-character content that is
mostly trailing whitespace is longer than 2000 characters, yet the code
strips it before measuring, so it is delivered as a single reply whose
concatenation is not the original string. -/
theorem c7_counterexample :
    2000 < c7_long_blank.length
    ∧ render_outbound c7_long_blank = [OutMsg.reply ['a']]
    ∧ ((render_outbound c7_long_blank).map OutMsg.payload).flatten ≠ c7_long_blank := by
  have hrend : render_outbound c7_long_blank = [OutMsg.reply ['a']] := by
    unfold render_outbound
    rw [pystrip_c7_long_blank]
    norm_num
  have hlen : c7_long_blank.length = 2501 := by
    unfold c7_long_blank
    rw [List.length_cons, List.length_replicate]
  refine ⟨by rw [hlen]; norm_num, hrend, ?_⟩
  rw [hrend]
  intro heq
  have h2 := congrArg List.length heq
  rw [hlen] at h2
  simp [OutMsg.payload] at h2

/-- C7 (amended): for every final content whose stripped form is longer
than 2000 characters, the outbound rendering splits the stripped string
on fixed-size 2000-character boundaries into at least 2 ordered messages,
each at most 2000 characters, whose concatenation equals the stripped
string; the first is a reply and all subsequent ones are plain sends. -/
theorem c7_render_outbound_chunks (content : Str)
    (h : 2000 < (pystrip content).length) :
    2 ≤ (render_outbound content).length
    ∧ (∀ m ∈ render_outbound content, (OutMsg.payload m).length ≤ 2000)
    ∧ ((render_outbound content).map OutMsg.payload).flatten = pystrip content
    ∧ ∃ (c : Str) (cs : List Str), render_outbound content = OutMsg.reply c :: cs.map OutMsg.plain := by
  have hfe : pystrip content ≠ [] := by
    intro hp; rw [hp] at h; simp at h
  have hne : (pystrip content).isEmpty = false := by
    cases hp : pystrip content with
    | nil => exact absurd hp hfe
    | cons a t => rfl
  have hch : chunksOf2000 (pystrip content).length (pystrip content) ≠ [] :=
    chunksOf2000_ne_nil _ _ hfe (by omega)
  obtain ⟨c, cs, hcc⟩ := List.exists_cons_of_ne_nil hch
  have hjoin : (c :: cs).flatten = pystrip content := by
    rw [← hcc]; exact chunksOf2000_join _ _ (le_refl _)
  have hlens : ∀ ch ∈ (c :: cs), ch.length ≤ 2000 := fun ch hm =>
    chunksOf2000_le _ _ ch (hcc ▸ hm)
  have hcs : cs ≠ [] := by
    intro hnil
    subst hnil
    have hc := hlens c (by simp)
    have : c = pystrip content := by simpa using hjoin
    rw [this] at hc
    omega
  have hrender : render_outbound content = OutMsg.reply c :: cs.map OutMsg.plain := by
    simp only [render_outbound, hne, Bool.false_eq_true, if_false]
    rw [if_pos h, hcc]
  refine ⟨?_, ?_, ?_, c, cs, hrender⟩
  · rw [hrender]
    cases cs with
    | nil => exact absurd rfl hcs
    | cons d ds => simp
  · intro m hm
    rw [hrender, List.mem_cons] at hm
    rcases hm with hm | hm
    · subst hm; exact hlens c (by simp)
    · obtain ⟨ch, hchm, hmp⟩ := List.mem_map.mp hm
      subst hmp
      exact hlens ch (by simp [hchm])
  · rw [hrender]
    have e1 : (OutMsg.reply c :: cs.map OutMsg.plain).map OutMsg.payload = c :: cs := by
      simp only [List.map_cons, List.map_map]
      rw [show (OutMsg.payload ∘ OutMsg.plain) = id from rfl, List.map_id]
      rfl
    rw [e1, hjoin]

def c7_long : Str := List.replicate 2001 'a'

lemma pystrip_c7_long : pystrip c7_long = c7_long := by
  unfold c7_long pystrip
  have hpa : pySpace 'a' = false := rfl
  rw [dropWhile_replicate_false hpa, List.reverse_replicate,
    dropWhile_replicate_false hpa, List.reverse_replicate]

/-- Witness for the amended C7 at a 2001-character whitespace-free content. -/
theorem c7_render_outbound_chunks_witness :
    2000 < (pystrip c7_long).length ∧ 2 ≤ (render_outbound c7_long).length := by
  have h : 2000 < (pystrip c7_long).length := by
    rw [pystrip_c7_long]
    show 2000 < (List.replicate 2001 'a').length
    rw [List.length_replicate]
    norm_num
  exact ⟨h, (c7_render_outbound_chunks c7_long h).1⟩


/-- C8: setting a memory for a (user, community, key) identity and then
reading it back through get_memory / get_all_memories yields the same
value and context; setting the same key again with a new value overwrites
the existing entry, and after each write the store holds exactly one row
for that identity. -/
theorem c8_memory_roundtrip (s : MemStore) (uid gid : Int) (key v c v2 c2 : Json)
    (t t2 : Str) (wf : MemWf s) :
    get_memory (set_memory s uid gid key v c t) uid gid key = some v
    ∧ pyDictGet (get_all_memories (set_memory s uid gid key v c t) uid gid) key
        = some ⟨v, c, t⟩
    ∧ (set_memory s uid gid key v c t).countP (isIdm uid gid key) = 1
    ∧ get_memory (set_memory (set_memory s uid gid key v c t) uid gid key v2 c2 t2)
        uid gid key = some v2
    ∧ (set_memory (set_memory s uid gid key v c t) uid gid key v2 c2 t2).countP
        (isIdm uid gid key) = 1 :=
  ⟨get_memory_set, pyDict_get_all_set, countP_set_memory wf,
    get_memory_set, countP_set_memory (set_memory_wf wf)⟩

def c8_key : Json := .str ("favorite_color".data)

def c8_v1 : Json := .str ("blue".data)

def c8_c1 : Json := .str ("user mentioned".data)

def c8_v2 : Json := .str ("green".data)

/-- Witness for C8 on the empty store. -/
theorem c8_memory_roundtrip_witness :
    get_memory (set_memory [] 9 1 c8_key c8_v1 c8_c1 ("t1".data)) 9 1 c8_key
      = some c8_v1
    ∧ pyDictGet (get_all_memories (set_memory [] 9 1 c8_key c8_v1 c8_c1 ("t1".data)) 9 1)
        c8_key = some ⟨c8_v1, c8_c1, "t1".data⟩
    ∧ (set_memory [] 9 1 c8_key c8_v1 c8_c1 ("t1".data)).countP (isIdm 9 1 c8_key) = 1
    ∧ get_memory (set_memory (set_memory [] 9 1 c8_key c8_v1 c8_c1 ("t1".data))
        9 1 c8_key c8_v2 c8_c1 ("t2".data)) 9 1 c8_key = some c8_v2
    ∧ (set_memory (set_memory [] 9 1 c8_key c8_v1 c8_c1 ("t1".data))
        9 1 c8_key c8_v2 c8_c1 ("t2".data)).countP (isIdm 9 1 c8_key) = 1 :=
  c8_memory_roundtrip [] 9 1 c8_key c8_v1 c8_c1 c8_v2 c8_c1 ("t1".data) ("t2".data)
    List.Pairwise.nil

/-- C9: a set_memory on an existing (user, community, key) row is an
in-place update, not an append: the store length is unchanged, every row
keeps its identity fields and created_at, rows of other identities are
untouched, and the matching row gets exactly the new value, context and
updated_at. -/
theorem c9_set_memory_frame (s : MemStore) (uid gid : Int) (key v c : Json)
    (now : Str) (h : s.any (isIdm uid gid key) = true) :
    (set_memory s uid gid key v c now).length = s.length
    ∧ ∀ (i : Nat) (r r2 : MemRow), s[i]? = some r →
        (set_memory s uid gid key v c now)[i]? = some r2 →
        r2.user_id = r.user_id ∧ r2.guild_id = r.guild_id
        ∧ r2.memory_key = r.memory_key ∧ r2.created_at = r.created_at
        ∧ (isIdm uid gid key r = false → r2 = r)
        ∧ (isIdm uid gid key r = true →
            r2.memory_value = v ∧ r2.context = c ∧ r2.updated_at = now) := by
  unfold set_memory
  rw [if_pos h]
  refine ⟨List.length_map _ _, fun i r r2 h1 h2 => ?_⟩
  rw [List.getElem?_map, h1, Option.map_some'] at h2
  have h3 := Option.some.inj h2
  subst h3
  refine ⟨upd_row_user_id r, upd_row_guild_id r, upd_row_memory_key r,
    upd_row_created_at r, ?_, ?_⟩
  · intro hf
    unfold upd_row
    rw [if_neg (by simp [hf])]
  · intro ht
    unfold upd_row
    rw [if_pos ht]
    exact ⟨rfl, rfl, rfl⟩

def c9_row : MemRow :=
  { user_id := 9, guild_id := 1, memory_key := .str ("skill".data),
    memory_value := .str ("python".data), context := .null,
    created_at := "t0".data, updated_at := "t0".data }

/-- Witness for C9 on a one-row store holding the identity being set. -/
theorem c9_set_memory_frame_witness :
    ([c9_row].any (isIdm 9 1 (Json.str ("skill".data))) = true)
    ∧ (set_memory [c9_row] 9 1 (Json.str ("skill".data)) (Json.str ("rust".data))
        Json.null ("t1".data)).length = 1 := by
  refine ⟨by decide, ?_⟩
  have h := (c9_set_memory_frame [c9_row] 9 1 (Json.str ("skill".data))
    (Json.str ("rust".data)) Json.null ("t1".data) (by decide)).1
  simpa using h

/-- C10: for tasks whose is_done field is boolean-valued (the only values
the code ever writes), toggle_task twice restores the table, and a single
toggle_task changes no task field other than is_done: every row keeps its
id, project, label, creator, assignee and created_at, and rows with a
different id are untouched. -/
theorem c10_toggle_task (db : DB) (tid : Int)
    (h : ∀ t ∈ db.tasks, t.is_done = 0 ∨ t.is_done = 1) :
    db_toggle_task (db_toggle_task db tid) tid = db
    ∧ (db_toggle_task db tid).tasks.length = db.tasks.length
    ∧ ∀ (i : Nat) (t t2 : Task), db.tasks[i]? = some t →
        (db_toggle_task db tid).tasks[i]? = some t2 →
        t2.id = t.id ∧ t2.project_id = t.project_id ∧ t2.label = t.label
        ∧ t2.created_by = t.created_by ∧ t2.assigned_to = t.assigned_to
        ∧ t2.created_at = t.created_at ∧ (t.id ≠ tid → t2 = t) := by
  refine ⟨?_, List.length_map _ _, ?_⟩
  · cases db with
    | mk ps ts =>
      have e : (ts.map (toggle_row tid)).map (toggle_row tid) = ts := by
        rw [List.map_map]
        calc ts.map (toggle_row tid ∘ toggle_row tid)
            = ts.map id := List.map_congr_left (fun t ht => by
                simp only [Function.comp_apply, id_eq]
                exact toggle_row_invol tid t (h t ht))
          _ = ts := List.map_id ts
      show DB.mk ps ((ts.map (toggle_row tid)).map (toggle_row tid)) = DB.mk ps ts
      rw [e]
  · intro i t t2 h1 h2
    have e : (db_toggle_task db tid).tasks[i]? = db.tasks[i]?.map (toggle_row tid) :=
      List.getElem?_map _ _ _
    rw [e, h1, Option.map_some'] at h2
    have h3 := Option.some.inj h2
    subst h3
    unfold toggle_row
    by_cases hid : t.id = tid
    · rw [if_pos (by simp [hid])]
      exact ⟨rfl, rfl, rfl, rfl, rfl, rfl, fun hne => absurd hid hne⟩
    · rw [if_neg (by simp [hid])]
      exact ⟨rfl, rfl, rfl, rfl, rfl, rfl, fun _ => rfl⟩

def c10_db : DB :=
  { projects := [], tasks := [
      { id := 1, project_id := 1, label := "write tests".data, is_done := 0,
        created_by := some 9, assigned_to := none, created_at := "t0".data },
      { id := 2, project_id := 1, label := "ship it".data, is_done := 1,
        created_by := none, assigned_to := some 9, created_at := "t0".data } ] }

/-- Witness for C10 on a two-task table. -/
theorem c10_toggle_task_witness :
    (∀ t ∈ c10_db.tasks, t.is_done = 0 ∨ t.is_done = 1)
    ∧ db_toggle_task (db_toggle_task c10_db 1) 1 = c10_db := by
  have h : ∀ t ∈ c10_db.tasks, t.is_done = 0 ∨ t.is_done = 1 := by decide
  exact ⟨h, (c10_toggle_task c10_db 1 h).1⟩

def c6_mem_missing_key : Json := .obj [("value".data, .str ("likes Lean".data))]

def c6_mem_ok : Json :=
  .obj [("key".data, .str ("name".data)), ("value".data, .str ("Kyle".data))]

/-- The single row left behind by the aborted loop: the first memory,
stored under the `misc` placeholder key. -/
def c6_orphan_row : MemRow :=
  { user_id := 9, guild_id := 1, memory_key := .str ("misc".data),
    memory_value := .str ("likes Lean".data), context := .null,
    created_at := "t0".data, updated_at := "t0".data }

/-- C6 is a code bug, evaluated at the failing input: a proposed memory
missing its `key` field is upserted with the `misc` placeholder, but the
following logging f-string indexes the dict with `key` and raises
KeyError, aborting the loop (and the turn): the second, well-formed
memory is never written.  The `.error` payload is the store state at the
abort — it holds only the first write. -/
theorem c6_save_memories_keyerror :
    save_memories [] 9 1 ("t0".data) [c6_mem_missing_key, c6_mem_ok]
      = .error [c6_orphan_row] := by
  rfl

/-- C2 (amended): the project/task tool executors resolve entities by id
alone.  Their result is identical under every caller context, a not-found
message is returned exactly when the id exists nowhere in the store, and
an existing entity is read (get_project_info) or mutated (toggle_task)
regardless of which community the caller belongs to — cross-community
access is not rejected. -/
theorem c2_tools_ignore_community (db : DB) (args : List (Str × Json))
    (ctx1 ctx2 : CallerCtx) :
    execute_get_project_info db args ctx1 = execute_get_project_info db args ctx2
    ∧ execute_toggle_task db args ctx1 = execute_toggle_task db args ctx2
    ∧ (∀ pid : Int, argInt args ("project_id".data) = some pid → pid ≠ 0 →
        db_get_project db pid = none →
        execute_get_project_info db args ctx1 = projNotFound pid)
    ∧ (∀ (pid : Int) (p : Project), argInt args ("project_id".data) = some pid →
        pid ≠ 0 → db_get_project db pid = some p →
        execute_get_project_info db args ctx1 = projectInfoText db p)
    ∧ (∀ (tid : Int) (task : Task), argInt args ("task_id".data) = some tid →
        tid ≠ 0 → db_get_task db tid = some task →
        (execute_toggle_task db args ctx1).2 = db_toggle_task db tid) := by
  refine ⟨rfl, rfl, ?_, ?_, ?_⟩
  · intro pid hp hnz hnone
    unfold execute_get_project_info
    rw [hp]
    simp only [tool_get_project_info]
    rw [if_neg hnz, hnone]
  · intro pid p hp hnz hsome
    unfold execute_get_project_info
    rw [hp]
    simp only [tool_get_project_info]
    rw [if_neg hnz, hsome]
  · intro tid task hp hnz hsome
    unfold execute_toggle_task
    rw [hp]
    simp only [tool_toggle_task]
    rw [if_neg hnz, hsome]

def c2_proj : Project :=
  { id := 1, guild_id := 2, title := "Secret plan".data, description := none,
    owners := [], status := "active".data, thread_id := none,
    created_at := "2024-01-01".data, archived_at := none, tags := [],
    template := none }

def c2_task : Task :=
  { id := 1, project_id := 1, label := "hidden task".data, is_done := 0,
    created_by := none, assigned_to := none, created_at := "2024-01-01".data }

def c2_db : DB := { projects := [c2_proj], tasks := [c2_task] }

def c2_ctx : CallerCtx := { guild_id := some 1, user_id := some 7 }

def c2_args_p : List (Str × Json) := [("project_id".data, .num 1)]

def c2_args_t : List (Str × Json) := [("task_id".data, .num 1)]

set_option maxRecDepth 4096 in
/-- Counterexample to C2 as stated: project 1 and task 1 belong to
community 2, the caller context is community 1, yet get_project_info
returns the full project detail (revealing the title) instead of a
not-found message, and toggle_task mutates the is_done field of the task — the
cross-community read and write both happen. -/
theorem c2_counterexample :
    execute_get_project_info c2_db c2_args_p c2_ctx ≠ projNotFound 1
    ∧ containsSub (execute_get_project_info c2_db c2_args_p c2_ctx)
        ("Secret plan".data) = true
    ∧ (execute_toggle_task c2_db c2_args_t c2_ctx).2 ≠ c2_db := by
  refine ⟨by decide, by decide, by decide⟩

/-- Witness for the amended C2 at the counterexample state. -/
theorem c2_tools_ignore_community_witness :
    execute_get_project_info c2_db c2_args_p c2_ctx = projectInfoText c2_db c2_proj
    ∧ (execute_toggle_task c2_db c2_args_t c2_ctx).2 = db_toggle_task c2_db 1 := by
  constructor
  · exact (c2_tools_ignore_community c2_db c2_args_p c2_ctx c2_ctx).2.2.2.1 1 c2_proj
      rfl (by norm_num) rfl
  · exact (c2_tools_ignore_community c2_db c2_args_t c2_ctx c2_ctx).2.2.2.2 1 c2_task
      rfl (by norm_num) rfl

lemma pystrip_didnt_get : (pystrip didnt_get_msg).isEmpty = false := by decide

lemma absolute_fallback_nonempty (x : Str) :
    (pystrip (absolute_fallback x)).isEmpty = false := by
  unfold absolute_fallback
  by_cases hx : (pystrip x).isEmpty = true
  · rw [if_pos hx]; exact pystrip_didnt_get
  · rw [if_neg hx]
    cases hb : (pystrip x).isEmpty with
    | false => rfl
    | true => exact absurd hb hx

/-- C3: an upstream response whose first choice has null content, no tool
calls and finish_reason "stop" makes the chat operation of the gateway return exactly
the fixed fallback string with no memories and no exception (every raise
is modelled by `Except` and caught); in general the content of every
LLMResponse produced by chat is non-empty (even after stripping). -/
theorem c3_chat_fallback (data : UpstreamData) (retry : Except Unit UpstreamData)
    (h1 : upstream_content data = [])
    (h2 : (firstChoice data).finish_reason = some ("stop".data)) :
    ((chat data retry).content = didnt_get_msg
      ∧ (chat data retry).memories_to_save = Json.arr [])
    ∧ ∀ (d2 : UpstreamData) (r2 : Except Unit UpstreamData),
        (pystrip (chat d2 r2).content).isEmpty = false := by
  refine ⟨⟨?_, ?_⟩, ?_⟩
  · show (chat data retry).content = didnt_get_msg
    unfold chat
    rw [h1, h2]
    rfl
  · show (chat data retry).memories_to_save = Json.arr []
    unfold chat
    rw [h1]
    rfl
  · intro d2 r2
    simp only [chat]
    exact absolute_fallback_nonempty _

def c3_choice : UpChoice :=
  { message := some { content := none, tool_calls := none },
    finish_reason := some ("stop".data) }

def c3_data : UpstreamData := { choices := [c3_choice], usage := [] }

/-- Witness for C3 at a concrete null-content stop-finish response. -/
theorem c3_chat_fallback_witness :
    (chat c3_data (.error ())).content = didnt_get_msg
    ∧ (chat c3_data (.error ())).memories_to_save = Json.arr [] :=
  (c3_chat_fallback c3_data (.error ()) rfl rfl).1

lemma mem_of_getLast?_aux {α : Type} :
    ∀ {l : List α} {m : α}, l.getLast? = some m → m ∈ l := by
  intro l
  induction l with
  | nil => intro m h; simp at h
  | cons a t ih =>
    intro m h
    cases t with
    | nil =>
      simp only [List.getLast?_singleton, Option.some.injEq] at h
      subst h; exact List.mem_singleton_self a
    | cons b t2 =>
      rw [List.getLast?_cons_cons] at h
      exact List.mem_cons_of_mem a (ih h)

lemma sorted_getLast?_le :
    ∀ (l : List Nat), l.Pairwise (· < ·) → ∀ m, l.getLast? = some m →
      ∀ i ∈ l, i ≤ m := by
  intro l
  induction l with
  | nil => intro _ m h; simp at h
  | cons a t ih =>
    intro hp m h i hi
    rw [List.pairwise_cons] at hp
    cases t with
    | nil =>
      simp only [List.getLast?_singleton, Option.some.injEq] at h
      subst h
      simp only [List.mem_singleton] at hi
      subst hi; exact le_refl _
    | cons b t2 =>
      rw [List.getLast?_cons_cons] at h
      rcases List.mem_cons.mp hi with rfl | hi2
      · exact le_of_lt (hp.1 m (mem_of_getLast?_aux h))
      · exact ih hp.2 m h i hi2

/-- A successful rfind yields an occurrence at or after `start`. -/
lemma pyRfind_occurs {s sub : Str} {start j : Nat}
    (h : pyRfind s sub start = some j) :
    start ≤ j ∧ occursAt s sub j = true := by
  unfold pyRfind at h
  have hm := mem_of_getLast?_aux h
  obtain ⟨-, hp⟩ := List.mem_filter.mp hm
  simp only [Bool.and_eq_true, decide_eq_true_eq] at hp
  exact hp

/-- Python rfind returns the greatest occurrence index: no occurrence at
or after `start` lies beyond it. -/
lemma pyRfind_greatest {s sub : Str} {start j : Nat} (hsub : sub ≠ [])
    (h : pyRfind s sub start = some j) :
    ∀ i, start ≤ i → occursAt s sub i = true → i ≤ j := by
  intro i hsi hocc
  have hilen : i ≤ s.length := by
    by_contra hgt
    push_neg at hgt
    have hdrop : s.drop i = [] := List.drop_eq_nil_of_le (le_of_lt hgt)
    rw [occursAt, hdrop] at hocc
    cases sub with
    | nil => exact hsub rfl
    | cons c cs => simp [List.isPrefixOf] at hocc
  unfold pyRfind at h
  refine sorted_getLast?_le _ ((List.pairwise_lt_range _).filter _) j h i ?_
  refine List.mem_filter.mpr ⟨List.mem_range.mpr (by omega), ?_⟩
  simp only [Bool.and_eq_true, decide_eq_true_eq]
  exact ⟨hsi, hocc⟩

lemma mem_dropWhile_of_neg {p : Char → Bool} {c : Char} :
    ∀ {l : Str}, c ∈ l → p c = false → c ∈ l.dropWhile p := by
  intro l
  induction l with
  | nil => intro h _; simp at h
  | cons a t ih =>
    intro hc hp
    by_cases hpa : p a = true
    · rw [List.dropWhile_cons_of_pos hpa]
      rcases List.mem_cons.mp hc with rfl | ht
      · simp [hp] at hpa
      · exact ih ht hp
    · rw [List.dropWhile_cons_of_neg hpa]
      exact hc

lemma mem_pystrip {c : Char} {s : Str} (hc : c ∈ s) (hp : pySpace c = false) :
    c ∈ pystrip s := by
  unfold pystrip
  rw [List.mem_reverse]
  exact mem_dropWhile_of_neg (List.mem_reverse.mpr (mem_dropWhile_of_neg hc hp)) hp

lemma pystrip_isEmpty_false_of_mem {c : Char} {s : Str} (hc : c ∈ s)
    (hp : pySpace c = false) : (pystrip s).isEmpty = false := by
  have h := mem_pystrip hc hp
  cases hh : pystrip s with
  | nil => rw [hh] at h; simp at h
  | cons a t => rfl

/-- A fence occurrence puts a (non-whitespace) backtick into the string. -/
lemma backtick_mem_of_occurs {s : Str} {j : Nat}
    (h : occursAt s fence_json j = true) : '\x60' ∈ s := by
  rw [occursAt, List.isPrefixOf_iff_prefix] at h
  exact List.drop_subset _ _ (h.subset (by decide))

lemma dropWhile_head_false {p : Char → Bool} :
    ∀ {l : Str} {a : Char} {t : Str}, l.dropWhile p = a :: t → p a = false := by
  intro l
  induction l with
  | nil => intro a t h; simp at h
  | cons b l2 ih =>
    intro a t h
    by_cases hb : p b = true
    · rw [List.dropWhile_cons_of_pos hb] at h
      exact ih h
    · rw [List.dropWhile_cons_of_neg hb] at h
      injection h with h1 h2
      subst h1
      cases hv : p b with
      | false => rfl
      | true => exact absurd hv hb

lemma dropWhile_eq_self_of_head {p : Char → Bool} {l : Str}
    (h : ∀ a t, l = a :: t → p a = false) : l.dropWhile p = l := by
  cases l with
  | nil => rfl
  | cons a t => rw [List.dropWhile_cons_of_neg (by simp [h a t rfl])]

/-- Python strip is idempotent. -/
lemma pystrip_idem (s : Str) : pystrip (pystrip s) = pystrip s := by
  unfold pystrip
  have hstep1 :
      (((s.dropWhile pySpace).reverse.dropWhile pySpace).reverse).dropWhile pySpace
        = ((s.dropWhile pySpace).reverse.dropWhile pySpace).reverse := by
    apply dropWhile_eq_self_of_head
    intro a t h
    have hsuf : ((s.dropWhile pySpace).reverse.dropWhile pySpace)
        <:+ (s.dropWhile pySpace).reverse := List.dropWhile_suffix pySpace
    obtain ⟨u, hu⟩ := hsuf
    have hA2 := congrArg List.reverse hu
    rw [List.reverse_append, List.reverse_reverse] at hA2
    rw [h, List.cons_append] at hA2
    exact dropWhile_head_false hA2.symm
  rw [hstep1, List.reverse_reverse, List.dropWhile_idempotent]

/-- The success path of the extraction block: guards hold, the extracted
region parses, and the parsed value has a `memories` member. -/
lemma extract_success {content : Str} {js je : Nat} {md v : Json}
    (hjs : pyRfind content fence_json 0 = some js)
    (hmar : containsSub content memories_marker = true)
    (hje : pyRfind content fence_end (js + 7) = some je)
    (hload : json_loads (pystrip ((content.take je).drop (js + 7))) = Except.ok md)
    (hmem : jsonMember memories_key md = Except.ok true)
    (hidx : jsonIndexStr md memories_key = Except.ok v) :
    extract_memory_block content = (pystrip (content.take js), v) := by
  have hc1 : containsSub content fence_json = true := by
    unfold containsSub; rw [hjs]; rfl
  unfold extract_memory_block
  rw [hc1, hmar]
  simp only [Bool.and_self, if_true]
  simp only [hjs, hje, hload, hmem, hidx, eq_self_iff_true, if_true]

/-- The failure path of the extraction block: the extracted region does
not parse, so the content is untouched and no memory is produced. -/
lemma extract_failed {content : Str} {js je : Nat}
    (hjs : pyRfind content fence_json 0 = some js)
    (hje : pyRfind content fence_end (js + 7) = some je)
    (herr : json_loads (pystrip ((content.take je).drop (js + 7))) = Except.error ()) :
    extract_memory_block content = (content, Json.arr []) := by
  have hc1 : containsSub content fence_json = true := by
    unfold containsSub; rw [hjs]; rfl
  unfold extract_memory_block
  by_cases hmar : containsSub content memories_marker = true
  · rw [hc1, hmar]
    simp only [Bool.and_self, if_true]
    simp only [hjs, hje, herr]
  · have hm2 : containsSub content memories_marker = false := by
      cases hm : containsSub content memories_marker with
      | false => rfl
      | true => exact absurd hm hmar
    rw [hc1, hm2]
    simp only [Bool.and_false]
    rw [if_neg (by simp)]

/-- C4: the gateway locates the last ` ```json ` fenced block (the rfind
index is the greatest occurrence), parses the region up to the last
closing fence, returns the `memories` value as memories_to_save and
strips the block from the visible content; when that region is malformed
JSON the result carries no memories and the content is unchanged — and
no exception escapes (every raise is modelled by `Except` and caught
inside the extraction). -/
theorem c4_memory_extraction (data : UpstreamData) :
    (∀ (js je : Nat) (md v : Json),
        pyRfind (upstream_content data) fence_json 0 = some js →
        containsSub (upstream_content data) memories_marker = true →
        pyRfind (upstream_content data) fence_end (js + 7) = some je →
        json_loads (pystrip (((upstream_content data).take je).drop (js + 7)))
          = Except.ok md →
        jsonMember memories_key md = Except.ok true →
        jsonIndexStr md memories_key = Except.ok v →
        (∀ i, occursAt (upstream_content data) fence_json i = true → i ≤ js)
        ∧ (chat_with_tool_results data).memories_to_save = v
        ∧ ((pystrip ((upstream_content data).take js)).isEmpty = false →
            (chat_with_tool_results data).content
              = pystrip ((upstream_content data).take js)))
    ∧ (∀ (js je : Nat),
        pyRfind (upstream_content data) fence_json 0 = some js →
        pyRfind (upstream_content data) fence_end (js + 7) = some je →
        json_loads (pystrip (((upstream_content data).take je).drop (js + 7)))
          = Except.error () →
        (chat_with_tool_results data).memories_to_save = Json.arr []
        ∧ (chat_with_tool_results data).content = upstream_content data) := by
  constructor
  · intro js je md v hjs hmar hje hload hmem hidx
    have hex := extract_success hjs hmar hje hload hmem hidx
    refine ⟨fun i hocc =>
      pyRfind_greatest (by decide) hjs i (Nat.zero_le i) hocc, ?_, ?_⟩
    · show (chat_with_tool_results data).memories_to_save = v
      simp only [chat_with_tool_results, hex]
    · intro hni
      show (chat_with_tool_results data).content
        = pystrip ((upstream_content data).take js)
      simp only [chat_with_tool_results, hex]
      unfold absolute_fallback
      rw [pystrip_idem]
      rw [if_neg (by simp [hni])]
  · intro js je hjs hje herr
    have hex := extract_failed hjs hje herr
    have hocc := (pyRfind_occurs hjs).2
    have hni : (pystrip (upstream_content data)).isEmpty = false :=
      pystrip_isEmpty_false_of_mem (backtick_mem_of_occurs hocc) (by decide)
    constructor
    · show (chat_with_tool_results data).memories_to_save = Json.arr []
      simp only [chat_with_tool_results, hex]
    · show (chat_with_tool_results data).content = upstream_content data
      simp only [chat_with_tool_results, hex]
      unfold absolute_fallback
      rw [if_neg (by simp [hni])]

def c4_content : Str :=
  ("Nice to meet you!\n```json\n\x7b\"memories\": [\x7b\"key\": \"name\", "
    ++ "\"value\": \"Kyle\", \"context\": \"intro\"\x7d]\x7d\n```").data

def c4_choice : UpChoice :=
  { message := some { content := some c4_content, tool_calls := none },
    finish_reason := some ("stop".data) }

def c4_data : UpstreamData := { choices := [c4_choice], usage := [] }

def c4_mems : Json :=
  .arr [.obj [("key".data, .str ("name".data)), ("value".data, .str ("Kyle".data)),
    ("context".data, .str ("intro".data))]]

def c4_md : Json := .obj [("memories".data, c4_mems)]

/-- Witness for C4 at the example content given in the specification: the memory list is
extracted and the fenced block is stripped from the visible content. -/
theorem c4_memory_extraction_witness :
    (chat_with_tool_results c4_data).memories_to_save = c4_mems
    ∧ (chat_with_tool_results c4_data).content = ("Nice to meet you!").data := by
  have h := (c4_memory_extraction c4_data).1 18 95 c4_md c4_mems
    (by decide) (by decide) (by decide) rfl rfl rfl
  refine ⟨h.2.1, ?_⟩
  rw [h.2.2 (by decide)]
  decide

end Brrr
